import Mathlib

/-!
Verification of the `InitArgsBuilder` / `InitArgs` subsystem
(src/wrapper/java_vm/init_args.rs): a builder accumulating JVM option
strings that, on `build()`, encodes each option as a null-terminated
C string and assembles the native `JavaVMInitArgs` record.

The embedding is shallow: strings are Lean `String`s; the heap effect of
`CString::new(..).into_raw()` and `CString::from_raw(..)` (drop) is made
explicit through a `Heap` value that records allocated buffers (address and
contents) and the multiset of release operations performed, so that leak
and double-free properties become statements about the final heap.
-/

instance {ε α : Type} [DecidableEq ε] [DecidableEq α] : DecidableEq (Except ε α) := fun x y =>
  match x, y with
  | .ok a, .ok b => if h : a = b then .isTrue (by rw [h]) else .isFalse (by simp [h])
  | .error a, .error b => if h : a = b then .isTrue (by rw [h]) else .isFalse (by simp [h])
  | .ok _, .error _ => .isFalse (by simp)
  | .error _, .ok _ => .isFalse (by simp)

namespace JniInitArgs

/-- Modelled from the spec: the version enum (defined outside this file, in
the wrapper's version module) is an ordered set of supported native-interface
version tags, baseline through several newer revisions, each mapping to a
fixed integer constant defined by the foreign API (the JNI versions 1.1
through 1.8). -/
inductive JNIVersion where
  | V1
  | V2
  | V4
  | V6
  | V8
deriving Repr, DecidableEq

/-- Modelled from the spec: each version tag maps to the fixed integer
constant defined by the foreign API (the JNI_VERSION_1_x constants). -/
def JNIVersion.toJint : JNIVersion → Int
  | .V1 => 0x10001
  | .V2 => 0x10002
  | .V4 => 0x10004
  | .V6 => 0x10006
  | .V8 => 0x10008

/-- Modelled from the spec: the baseline is the lowest supported native
interface version. -/
def baselineVersion : JNIVersion := .V1

/-- Errors that can occur when invoking a JavaVM with the Invocation API:
an internal 0 byte was found when constructing an option string. -/
inductive JvmError where
  | NullOptString (s : String)
deriving Repr, DecidableEq

/-- Builder for JavaVM InitArgs (fields of `InitArgsBuilder`). -/
structure InitArgsBuilder where
  opts : List String
  ignore_unrecognized : Bool
  version : JNIVersion
deriving Repr, DecidableEq

/-- `impl Default for InitArgsBuilder`. -/
def InitArgsBuilder.default : InitArgsBuilder :=
  { opts := [], ignore_unrecognized := false, version := .V8 }

/-- `InitArgsBuilder::new`: create a new default InitArgsBuilder. -/
def InitArgsBuilder.new : InitArgsBuilder := InitArgsBuilder.default

/-- `InitArgsBuilder::option`: add an option to the init args; the
`vfprintf`, `abort` and `exit` options are dropped. -/
def InitArgsBuilder.option (s : InitArgsBuilder) (opt_string : String) :
    InitArgsBuilder :=
  if opt_string = "vfprintf" ∨ opt_string = "abort" ∨ opt_string = "exit" then
    s
  else
    { s with opts := s.opts ++ [opt_string] }

/-- `InitArgsBuilder::version`: set the JNI version for the init args
(primed because the Lean structure-field projection takes the plain name). -/
def InitArgsBuilder.version' (s : InitArgsBuilder) (version : JNIVersion) :
    InitArgsBuilder :=
  { s with version := version }

/-- `InitArgsBuilder::ignore_unrecognized`: set the ignoreUnrecognized flag
(primed because the Lean structure-field projection takes the plain name). -/
def InitArgsBuilder.ignore_unrecognized' (s : InitArgsBuilder) (ignore : Bool) :
    InitArgsBuilder :=
  { s with ignore_unrecognized := ignore }

/-- `InitArgsBuilder::options`: returns collected options (a clone). -/
def InitArgsBuilder.options (s : InitArgsBuilder) : List String := s.opts

/-- The builders reachable from `new()` / default construction through any
sequence of `option`, `version` and `ignore_unrecognized` calls. -/
inductive Reachable : InitArgsBuilder → Prop where
  | base : Reachable InitArgsBuilder.default
  | opt {b : InitArgsBuilder} (s : String) :
      Reachable b → Reachable (b.option s)
  | ver {b : InitArgsBuilder} (v : JNIVersion) :
      Reachable b → Reachable (b.version' v)
  | ign {b : InitArgsBuilder} (f : Bool) :
      Reachable b → Reachable (b.ignore_unrecognized' f)

/-- A Rust `String` is UTF-8, so its bytes contain an interior NUL
(making `CString::new` fail) iff the string contains the character U+0000. -/
def hasInteriorNul (s : String) : Bool := s.data.contains (Char.ofNat 0)

/-- The explicit heap: `next` is the next fresh buffer address, `store` the
live allocations (address and contents, in allocation order) and `freed`
the sequence of addresses passed to a release so far (kept as a sequence so
releasing twice is observable). -/
structure Heap where
  next : Nat
  store : List (Nat × String)
  freed : List Nat
deriving Repr, DecidableEq

def emptyHeap : Heap := ⟨0, [], []⟩

/-- `CString::new(s)` followed by `into_raw()`: fails iff `s` has an interior
NUL; otherwise allocates a fresh buffer holding `s` and returns its raw
address, ownership passing to the raw pointer. -/
def cstringIntoRaw (h : Heap) (s : String) : Option (Heap × Nat) :=
  if hasInteriorNul s then none
  else some ({ h with next := h.next + 1, store := h.store ++ [(h.next, s)] },
             h.next)

/-- `CString::from_raw(p)` immediately dropped: releases the buffer at `p`. -/
def cstringFromRawDrop (h : Heap) (p : Nat) : Heap :=
  { h with store := h.store.filter (fun b => b.1 ≠ p), freed := h.freed ++ [p] }

def lookupStore (st : List (Nat × String)) (p : Nat) : Option String :=
  (st.find? (fun b => b.1 == p)).map (fun b => b.2)

/-- Contents of the live buffer at address `p`, if any. -/
def Heap.contents (h : Heap) (p : Nat) : Option String := lookupStore h.store p

/-- Well-formed heap: every recorded address was handed out by `next`. -/
def Heap.WF (h : Heap) : Prop :=
  (∀ b ∈ h.store, b.1 < h.next) ∧ ∀ p ∈ h.freed, p < h.next

/-- `JavaVMOption` from the sys layer: a raw pointer to the encoded option
text and the reserved `extraInfo` pointer (`0` models the null pointer). -/
structure JavaVMOption where
  optionString : Nat
  extraInfo : Nat
deriving Repr, DecidableEq

/-- `usize as jint`: wrap to a signed 32-bit value. -/
def asJint (n : Nat) : Int :=
  if n % 2 ^ 32 < 2 ^ 31 then ((n % 2 ^ 32 : Nat) : Int)
  else ((n % 2 ^ 32 : Nat) : Int) - 2 ^ 32

/-- `JavaVMInitArgs` from the sys layer. The `options` field models the raw
pointer `opts.as_ptr()` by the array contents it points to. -/
structure JavaVMInitArgs where
  version : Int
  ignoreUnrecognized : Nat
  options : List JavaVMOption
  nOptions : Int
deriving Repr, DecidableEq

/-- The finalized `InitArgs`: the native record plus the backing vector. -/
structure InitArgs where
  inner : JavaVMInitArgs
  opts : List JavaVMOption
deriving Repr, DecidableEq

/-- The `for opt in self.opts` loop of `InitArgsBuilder::build`: encode each
option in turn, accumulating `JavaVMOption`s; on the first encoding failure
return the `NullOptString` error carrying the original string.  On that path
the partial accumulator is a `Vec` of plain structs holding raw pointers, so
dropping it releases nothing: the heap is returned as it stands. -/
def buildLoop (h : Heap) (acc : List JavaVMOption) :
    List String → Heap × Except JvmError (List JavaVMOption)
  | [] => (h, .ok acc)
  | opt :: rest =>
    match cstringIntoRaw h opt with
    | none => (h, .error (JvmError.NullOptString opt))
    | some (h1, p) =>
        buildLoop h1 (acc ++ [{ optionString := p, extraInfo := 0 }]) rest

/-- `InitArgsBuilder::build`. -/
def InitArgsBuilder.build (s : InitArgsBuilder) (h : Heap) :
    Heap × Except JvmError InitArgs :=
  match buildLoop h [] s.opts with
  | (h1, .error e) => (h1, .error e)
  | (h1, .ok opts) =>
      (h1, .ok
        { inner :=
            { version := s.version.toJint
              ignoreUnrecognized := if s.ignore_unrecognized then 1 else 0
              options := opts
              nOptions := asJint opts.length }
          opts := opts })

/-- `impl Drop for InitArgs`: `CString::from_raw` each `optionString`. -/
def InitArgs.drop (a : InitArgs) (h : Heap) : Heap :=
  a.opts.foldl (fun hh o => cstringFromRawDrop hh o.optionString) h

/-- An option string with an embedded NUL byte. -/
def nulString : String := "bad" ++ String.mk [Char.ofNat 0] ++ "opt"

/-- A second option string with an embedded NUL byte. -/
def nulString2 : String := "x" ++ String.mk [Char.ofNat 0] ++ "y"

/-- The concrete failing input for the error-path leak: a builder holding
one well-formed option followed by one with an embedded NUL. -/
def leakBuilder : InitArgsBuilder :=
  (InitArgsBuilder.new.option "a").option nulString

/-- A builder whose pending options hold two strings with embedded NULs. -/
def doubleNulBuilder : InitArgsBuilder :=
  (InitArgsBuilder.new.option nulString).option nulString2

/-- A concrete single-option builder used to instantiate the success-path
theorems. -/
def witnessBuilder : InitArgsBuilder := InitArgsBuilder.new.option "-Xcheck:jni"

/-- The heap produced by building `witnessBuilder` from the empty heap. -/
def witnessHeap : Heap := ⟨1, [(0, "-Xcheck:jni")], []⟩

/-- The InitArgs produced by building `witnessBuilder` from the empty heap. -/
def witnessArgs : InitArgs := ⟨⟨0x10008, 0, [⟨0, 0⟩], 1⟩, [⟨0, 0⟩]⟩

/-- When every option encodes, the build loop allocates one fresh buffer per
option, at the consecutive addresses `h.next, h.next + 1, …`, appends the
corresponding descriptors to the accumulator and frees nothing. -/
theorem buildLoop_ok (l : List String) :
    ∀ (h : Heap) (acc : List JavaVMOption),
      (∀ s ∈ l, hasInteriorNul s = false) →
      buildLoop h acc l =
        ({ next := h.next + l.length,
           store := h.store ++ List.zip (List.range' h.next l.length) l,
           freed := h.freed },
         .ok (acc ++ (List.range' h.next l.length).map
            (fun p => { optionString := p, extraInfo := 0 }))) := by
  induction l with
  | nil => intro h acc _; simp [buildLoop]
  | cons hd tl ih =>
    intro h acc hnul
    have hhd : hasInteriorNul hd = false := hnul hd (List.mem_cons_self hd tl)
    have step := ih { next := h.next + 1, store := h.store ++ [(h.next, hd)], freed := h.freed }
      (acc ++ [{ optionString := h.next, extraInfo := 0 }])
      (fun s hs => hnul s (List.mem_cons_of_mem hd hs))
    simp only [buildLoop, cstringIntoRaw, hhd, Bool.false_eq_true, if_false]
    rw [step]
    simp [List.range'_succ, List.append_assoc]
    omega

/-- When the options split as `pre ++ bad :: post` with `pre` all encodable
and `bad` carrying an interior NUL, the build loop stops at `bad` with the
`NullOptString` error: it has allocated exactly one buffer per element of
`pre` (which stay allocated — nothing on this path frees them, the partial
descriptor vector holds only raw pointers) and has encoded nothing of
`post`. -/
theorem buildLoop_err (pre : List String) :
    ∀ (h : Heap) (acc : List JavaVMOption) (bad : String) (post : List String),
      (∀ s ∈ pre, hasInteriorNul s = false) → hasInteriorNul bad = true →
      buildLoop h acc (pre ++ bad :: post) =
        ({ next := h.next + pre.length,
           store := h.store ++ List.zip (List.range' h.next pre.length) pre,
           freed := h.freed },
         .error (JvmError.NullOptString bad)) := by
  induction pre with
  | nil => intro h acc bad post _ hbad; simp [buildLoop, cstringIntoRaw, hbad]
  | cons hd tl ih =>
    intro h acc bad post hnul hbad
    have hhd : hasInteriorNul hd = false := hnul hd (List.mem_cons_self hd tl)
    have step := ih { next := h.next + 1, store := h.store ++ [(h.next, hd)], freed := h.freed }
      (acc ++ [{ optionString := h.next, extraInfo := 0 }]) bad post
      (fun s hs => hnul s (List.mem_cons_of_mem hd hs)) hbad
    rw [show (hd :: tl) ++ bad :: post = hd :: (tl ++ bad :: post) from rfl]
    simp only [buildLoop, cstringIntoRaw, hhd, Bool.false_eq_true, if_false]
    rw [step]
    simp [List.range'_succ, List.append_assoc]
    omega

/-- Releasing the buffers at the consecutive addresses `n, n + 1, …` removes
exactly the zipped block from the store (leaving `s0`, whose addresses are
all below `n`, untouched) and records each of those addresses as freed
once. -/
theorem dropLoop (l : List String) :
    ∀ (n : Nat) (s0 : List (Nat × String)) (nx : Nat) (fr : List Nat),
      (∀ b ∈ s0, b.1 < n) →
      List.foldl (fun hh (o : JavaVMOption) => cstringFromRawDrop hh o.optionString)
        { next := nx, store := s0 ++ List.zip (List.range' n l.length) l, freed := fr }
        ((List.range' n l.length).map (fun p => { optionString := p, extraInfo := 0 })) =
        { next := nx, store := s0, freed := fr ++ List.range' n l.length } := by
  induction l with
  | nil => intro n s0 nx fr _; simp
  | cons hd tl ih =>
    intro n s0 nx fr hs0
    simp only [List.length_cons, List.range'_succ, List.zip_cons_cons, List.map_cons,
      List.foldl_cons]
    have h1 : s0.filter (fun b => !decide (b.1 = n)) = s0 :=
      List.filter_eq_self.mpr (fun b hb => by
        have hne : b.1 ≠ n := Nat.ne_of_lt (hs0 b hb)
        simp [hne])
    have h2 : (List.zip (List.range' (n + 1) tl.length) tl).filter (fun b => !decide (b.1 = n)) =
        List.zip (List.range' (n + 1) tl.length) tl :=
      List.filter_eq_self.mpr (fun b hb => by
        have hmem := (List.of_mem_zip hb).1
        rw [List.mem_range'_1] at hmem
        have hne : b.1 ≠ n := by omega
        simp [hne])
    have hstep : cstringFromRawDrop
        { next := nx, store := s0 ++ (n, hd) :: List.zip (List.range' (n + 1) tl.length) tl,
          freed := fr } n =
        { next := nx, store := s0 ++ List.zip (List.range' (n + 1) tl.length) tl,
          freed := fr ++ [n] } := by
      simp only [cstringFromRawDrop, ne_eq, decide_not, List.filter_append, List.filter_cons]
      simp [h1, h2]
    rw [hstep, ih (n + 1) s0 nx (fr ++ [n]) (fun b hb => Nat.lt_succ_of_lt (hs0 b hb))]
    simp [List.range'_succ, List.append_assoc]

/-- A lookup skips a prefix of the store none of whose addresses match. -/
theorem lookup_skip (s0 : List (Nat × String)) (rest : List (Nat × String)) (p : Nat)
    (h : ∀ b ∈ s0, b.1 ≠ p) :
    lookupStore (s0 ++ rest) p = lookupStore rest p := by
  induction s0 with
  | nil => rfl
  | cons b bs ih =>
    have hb : (b.1 == p) = false := by
      simp [h b (List.mem_cons_self b bs)]
    simp only [lookupStore, List.cons_append, List.find?_cons, hb]
    exact ih (fun x hx => h x (List.mem_cons_of_mem b hx))

/-- Reading back the consecutive addresses `n, n + 1, …` from a store that
extends `s0` (addresses below `n`) with the zipped block recovers exactly the
encoded strings, in order. -/
theorem lookup_append_zip (l : List String) :
    ∀ (n : Nat) (s0 : List (Nat × String)),
      (∀ b ∈ s0, b.1 < n) →
      (List.range' n l.length).map
          (fun p => lookupStore (s0 ++ List.zip (List.range' n l.length) l) p) =
        l.map some := by
  induction l with
  | nil => intro n s0 _; simp
  | cons hd tl ih =>
    intro n s0 hs0
    simp only [List.length_cons, List.range'_succ, List.zip_cons_cons, List.map_cons]
    have hhead : lookupStore (s0 ++ (n, hd) :: List.zip (List.range' (n + 1) tl.length) tl) n =
        some hd := by
      rw [lookup_skip s0 _ n (fun b hb => Nat.ne_of_lt (hs0 b hb))]
      simp [lookupStore, List.find?_cons]
    rw [hhead]
    have hre : s0 ++ (n, hd) :: List.zip (List.range' (n + 1) tl.length) tl =
        (s0 ++ [(n, hd)]) ++ List.zip (List.range' (n + 1) tl.length) tl := by
      simp
    rw [hre]
    have hs0' : ∀ b ∈ s0 ++ [(n, hd)], b.1 < n + 1 := by
      intro b hb
      rcases List.mem_append.mp hb with h1 | h1
      · exact Nat.lt_succ_of_lt (hs0 b h1)
      · simp at h1
        simp [h1]
    rw [ih (n + 1) (s0 ++ [(n, hd)]) hs0']

/-- An option list in which not every string encodes splits at its first
string with an interior NUL. -/
theorem exists_first_nul (l : List String)
    (hl : ¬ ∀ s ∈ l, hasInteriorNul s = false) :
    ∃ pre bad post, l = pre ++ bad :: post ∧
      (∀ s ∈ pre, hasInteriorNul s = false) ∧ hasInteriorNul bad = true := by
  induction l with
  | nil => simp at hl
  | cons hd tl ih =>
    by_cases hhd : hasInteriorNul hd = true
    · exact ⟨[], hd, tl, by simp, by simp, hhd⟩
    · have hhd' : hasInteriorNul hd = false := by
        revert hhd; cases hasInteriorNul hd <;> simp
      have htl : ¬ ∀ s ∈ tl, hasInteriorNul s = false := by
        intro hall
        exact hl (by
          intro s hs
          rcases List.mem_cons.mp hs with h1 | h1
          · rw [h1]; exact hhd'
          · exact hall s h1)
      obtain ⟨pre, bad, post, heq, hpre, hbad⟩ := ih htl
      refine ⟨hd :: pre, bad, post, by simp [heq], ?_, hbad⟩
      intro s hs
      rcases List.mem_cons.mp hs with h1 | h1
      · rw [h1]; exact hhd'
      · exact hpre s h1

/-- Insertion-time filtering: no reachable builder's pending options contain
a reserved name. -/
theorem reachable_no_reserved {b : InitArgsBuilder} (hb : Reachable b) :
    "vfprintf" ∉ b.opts ∧ "abort" ∉ b.opts ∧ "exit" ∉ b.opts := by
  induction hb with
  | base => simp [InitArgsBuilder.default]
  | opt s _ ih =>
    obtain ⟨h1, h2, h3⟩ := ih
    by_cases hres : s = "vfprintf" ∨ s = "abort" ∨ s = "exit"
    · simp only [InitArgsBuilder.option, if_pos hres]
      exact ⟨h1, h2, h3⟩
    · push_neg at hres
      obtain ⟨n1, n2, n3⟩ := hres
      simp only [InitArgsBuilder.option,
        if_neg (by simp [n1, n2, n3] : ¬(s = "vfprintf" ∨ s = "abort" ∨ s = "exit"))]
      simp only [List.mem_append, List.mem_singleton]
      exact ⟨by rintro (h | h); exact h1 h; exact n1 h.symm,
             by rintro (h | h); exact h2 h; exact n2 h.symm,
             by rintro (h | h); exact h3 h; exact n3 h.symm⟩
  | ver v _ ih => simpa [InitArgsBuilder.version'] using ih
  | ign f _ ih => simpa [InitArgsBuilder.ignore_unrecognized'] using ih

/-- In the spec-modelled version enum, the baseline is the version with the
least foreign-API integer constant. -/
theorem baseline_lowest (v : JNIVersion) :
    baselineVersion.toJint ≤ v.toJint := by
  cases v <;> decide

/-- Claim C1: the claim requires that when `build()` fails on an embedded
NUL, the buffers already encoded for the preceding options neither leak nor
are freed twice. The code violates the no-leak half: at the concrete input
`new().option("a").option("bad\x00opt")`, `build` returns the
`NullOptString` error, yet the buffer encoded for `"a"` is still allocated
in the final heap with no owner (no `InitArgs` was produced, and the raw
pointer handed out by `into_raw` was dropped inside the partial descriptor
vector without reclaiming the `CString`), and nothing was freed on the path
(so the double-free half does hold). -/
theorem build_error_path_leaks_encoded_buffers :
    (leakBuilder.build emptyHeap).2 = .error (JvmError.NullOptString nulString) ∧
    (leakBuilder.build emptyHeap).1.store = [(0, "a")] ∧
    (leakBuilder.build emptyHeap).1.freed = [] := by decide

/-- Claim C2: for every successful `build()` from a well-formed heap, the
number of owned encoded option buffers equals the number of accepted options
held by the builder; the buffer addresses are pairwise distinct and fresh
(neither live nor freed before the build); the build itself frees nothing;
and dropping the resulting `InitArgs` restores the store exactly (no leak)
while recording each buffer address as released exactly once, none of them
previously released (no double free). -/
theorem build_ok_buffers_counted_and_released_once
    (b : InitArgsBuilder) (h h' : Heap) (a : InitArgs)
    (hWF : h.WF) (hok : b.build h = (h', .ok a)) :
    a.opts.length = b.opts.length ∧
    (a.opts.map JavaVMOption.optionString).Nodup ∧
    (∀ p ∈ a.opts.map JavaVMOption.optionString,
        p ∉ h.freed ∧ p ∉ h.store.map Prod.fst) ∧
    h'.freed = h.freed ∧
    (a.drop h').store = h.store ∧
    (a.drop h').freed = h.freed ++ a.opts.map JavaVMOption.optionString := by
  by_cases hall : ∀ s ∈ b.opts, hasInteriorNul s = false
  case neg =>
    obtain ⟨pre, bad, post, heq, hpre, hbad⟩ := exists_first_nul b.opts hall
    have herr := buildLoop_err pre h [] bad post hpre hbad
    unfold InitArgsBuilder.build at hok
    rw [heq, herr] at hok
    simp at hok
  case pos =>
    have hbl := buildLoop_ok b.opts h [] hall
    unfold InitArgsBuilder.build at hok
    rw [hbl] at hok
    simp only [Prod.mk.injEq, Except.ok.injEq] at hok
    obtain ⟨hh', ha⟩ := hok
    subst hh'
    subst ha
    simp only [List.nil_append, List.map_map, List.length_map, List.length_range']
    have hmapid : (JavaVMOption.optionString ∘ fun p =>
        ({ optionString := p, extraInfo := 0 } : JavaVMOption)) = id := rfl
    rw [hmapid, List.map_id]
    refine ⟨trivial, List.nodup_range' _ _, ?_, trivial, ?_, ?_⟩
    · intro p hp
      rw [List.mem_range'_1] at hp
      constructor
      · intro hmem
        have := hWF.2 p hmem
        omega
      · intro hmem
        obtain ⟨x, hx, hxp⟩ := List.mem_map.mp hmem
        have := hWF.1 x hx
        omega
    · simp only [InitArgs.drop]
      rw [dropLoop b.opts h.next h.store (h.next + b.opts.length) h.freed hWF.1]
    · simp only [InitArgs.drop]
      rw [dropLoop b.opts h.next h.store (h.next + b.opts.length) h.freed hWF.1]

/-- Witness for the theorem of claim C2, at the concrete single-option
builder built from the empty heap. -/
theorem build_ok_buffers_witness :
    witnessArgs.opts.length = witnessBuilder.opts.length ∧
    (witnessArgs.opts.map JavaVMOption.optionString).Nodup ∧
    (∀ p ∈ witnessArgs.opts.map JavaVMOption.optionString,
        p ∉ emptyHeap.freed ∧ p ∉ emptyHeap.store.map Prod.fst) ∧
    witnessHeap.freed = emptyHeap.freed ∧
    (witnessArgs.drop witnessHeap).store = emptyHeap.store ∧
    (witnessArgs.drop witnessHeap).freed =
      emptyHeap.freed ++ witnessArgs.opts.map JavaVMOption.optionString :=
  build_ok_buffers_counted_and_released_once witnessBuilder emptyHeap witnessHeap
    witnessArgs (by simp [Heap.WF, emptyHeap]) (by decide)

/-- Claim C3: for any builder whose pending options include a string with an
embedded NUL byte, `build()` returns the `NullOptString` error carrying an
offending pending option (the exact original string — when the NUL-carrying
option is unique it is that very string), and no `InitArgs` is produced
(the result is an error value). -/
theorem build_nul_option_errors (b : InitArgsBuilder) (h : Heap) (s : String)
    (hs : s ∈ b.opts) (hnul : hasInteriorNul s = true) :
    ∃ h' t, b.build h = (h', .error (JvmError.NullOptString t)) ∧
      t ∈ b.opts ∧ hasInteriorNul t = true ∧
      ((∀ u ∈ b.opts, hasInteriorNul u = true → u = s) → t = s) := by
  have hnot : ¬ ∀ u ∈ b.opts, hasInteriorNul u = false := by
    intro hall
    rw [hall s hs] at hnul
    exact Bool.false_ne_true hnul
  obtain ⟨pre, bad, post, heq, hpre, hbad⟩ := exists_first_nul b.opts hnot
  have herr := buildLoop_err pre h [] bad post hpre hbad
  refine ⟨{ next := h.next + pre.length,
            store := h.store ++ List.zip (List.range' h.next pre.length) pre,
            freed := h.freed }, bad, ?_, ?_, hbad, ?_⟩
  · unfold InitArgsBuilder.build
    rw [heq, herr]
  · rw [heq]; simp
  · intro huniq
    exact huniq bad (by rw [heq]; simp) hbad

/-- Witness for the theorem of claim C3, at the concrete builder holding
`"a"` and then a NUL-carrying option. -/
theorem build_nul_option_errors_witness :
    ∃ h' t, leakBuilder.build emptyHeap = (h', .error (JvmError.NullOptString t)) ∧
      t ∈ leakBuilder.opts ∧ hasInteriorNul t = true ∧
      ((∀ u ∈ leakBuilder.opts, hasInteriorNul u = true → u = nulString) →
        t = nulString) :=
  build_nul_option_errors leakBuilder emptyHeap nulString (by decide) (by decide)

/-- Claim C4: for every string, `option(text)` appends the text to the end
of the pending sequence unless the text equals (case-sensitively) one of the
reserved names `"vfprintf"`, `"abort"`, `"exit"`, in which case the call is
a no-op — the pending sequence is unchanged and (on any reachable builder)
`options()` excludes the reserved name; the version and ignore flags are
never affected. -/
theorem option_appends_unless_reserved (b : InitArgsBuilder) (s : String)
    (hb : Reachable b) :
    (¬(s = "vfprintf" ∨ s = "abort" ∨ s = "exit") →
        (b.option s).opts = b.opts ++ [s]) ∧
    ((s = "vfprintf" ∨ s = "abort" ∨ s = "exit") →
        (b.option s).opts = b.opts ∧ s ∉ (b.option s).options) ∧
    (b.option s).version = b.version ∧
    (b.option s).ignore_unrecognized = b.ignore_unrecognized := by
  refine ⟨fun hres => ?_, fun hres => ?_, ?_, ?_⟩
  · simp only [InitArgsBuilder.option, if_neg hres]
  · obtain ⟨h1, h2, h3⟩ := reachable_no_reserved hb
    simp only [InitArgsBuilder.option, if_pos hres, InitArgsBuilder.options]
    exact ⟨trivial, by rcases hres with h | h | h <;> rw [h] <;> assumption⟩
  · unfold InitArgsBuilder.option
    split <;> rfl
  · unfold InitArgsBuilder.option
    split <;> rfl

/-- Witness for the theorem of claim C4, at the default builder and the
reserved option `"abort"`. -/
theorem option_appends_witness :
    (¬("abort" = "vfprintf" ∨ "abort" = "abort" ∨ "abort" = "exit") →
        (InitArgsBuilder.default.option "abort").opts =
          InitArgsBuilder.default.opts ++ ["abort"]) ∧
    (("abort" = "vfprintf" ∨ "abort" = "abort" ∨ "abort" = "exit") →
        (InitArgsBuilder.default.option "abort").opts = InitArgsBuilder.default.opts ∧
          "abort" ∉ (InitArgsBuilder.default.option "abort").options) ∧
    (InitArgsBuilder.default.option "abort").version = InitArgsBuilder.default.version ∧
    (InitArgsBuilder.default.option "abort").ignore_unrecognized =
      InitArgsBuilder.default.ignore_unrecognized :=
  option_appends_unless_reserved InitArgsBuilder.default "abort" Reachable.base

/-- Claim C5: for every builder reachable from `new()` / default
construction through any sequence of `option`, `version` and
`ignore_unrecognized` calls, the pending option sequence never contains
`"vfprintf"`, `"abort"` or `"exit"`. -/
theorem reachable_never_contains_reserved (b : InitArgsBuilder)
    (hb : Reachable b) :
    "vfprintf" ∉ b.opts ∧ "abort" ∉ b.opts ∧ "exit" ∉ b.opts :=
  reachable_no_reserved hb

/-- Witness for the theorem of claim C5, at the builder reached by one
`option` call. -/
theorem reachable_reserved_witness :
    "vfprintf" ∉ (InitArgsBuilder.default.option "-Xverify:none").opts ∧
    "abort" ∉ (InitArgsBuilder.default.option "-Xverify:none").opts ∧
    "exit" ∉ (InitArgsBuilder.default.option "-Xverify:none").opts :=
  reachable_never_contains_reserved _ (Reachable.opt "-Xverify:none" Reachable.base)

/-- Claim C6: on a successful `build()` from a well-formed heap, the record
carries the builder's version tag (as its foreign integer constant) and the
ignore-unrecognized flag (as 1 or 0); the record's option-array pointer is
the backing descriptor sequence; the element count is the (32-bit cast of
the) number of pending options — equal to that number whenever it is
representable — each descriptor's auxiliary `extraInfo` pointer is null; the
encoded buffers read back as the original options in insertion order; and
with zero options the count is 0. -/
theorem build_ok_record_fields (b : InitArgsBuilder) (h h' : Heap) (a : InitArgs)
    (hWF : h.WF) (hok : b.build h = (h', .ok a)) :
    a.inner.version = b.version.toJint ∧
    a.inner.ignoreUnrecognized = (if b.ignore_unrecognized then 1 else 0) ∧
    a.inner.options = a.opts ∧
    a.inner.nOptions = asJint b.opts.length ∧
    (b.opts.length < 2 ^ 31 → a.inner.nOptions = (b.opts.length : Int)) ∧
    (∀ o ∈ a.opts, o.extraInfo = 0) ∧
    a.opts.map (fun o => h'.contents o.optionString) = b.opts.map some ∧
    (b.opts = [] → a.inner.nOptions = 0) := by
  by_cases hall : ∀ s ∈ b.opts, hasInteriorNul s = false
  case neg =>
    obtain ⟨pre, bad, post, heq, hpre, hbad⟩ := exists_first_nul b.opts hall
    have herr := buildLoop_err pre h [] bad post hpre hbad
    unfold InitArgsBuilder.build at hok
    rw [heq, herr] at hok
    simp at hok
  case pos =>
    have hbl := buildLoop_ok b.opts h [] hall
    unfold InitArgsBuilder.build at hok
    rw [hbl] at hok
    simp only [Prod.mk.injEq, Except.ok.injEq] at hok
    obtain ⟨hh', ha⟩ := hok
    subst hh'
    subst ha
    simp only [List.nil_append]
    refine ⟨trivial, trivial, trivial, by simp, ?_, ?_, ?_, ?_⟩
    · intro hlen
      have hm : b.opts.length % 2 ^ 32 = b.opts.length :=
        Nat.mod_eq_of_lt (by omega)
      simp only [List.length_map, List.length_range', asJint, hm]
      rw [if_pos hlen]
    · intro o ho
      obtain ⟨p, hp, hpo⟩ := List.mem_map.mp ho
      rw [← hpo]
    · rw [List.map_map]
      have hcomp : ((fun o : JavaVMOption =>
          Heap.contents
            { next := h.next + b.opts.length,
              store := h.store ++ List.zip (List.range' h.next b.opts.length) b.opts,
              freed := h.freed } o.optionString) ∘
          fun p => ({ optionString := p, extraInfo := 0 } : JavaVMOption)) =
          fun p => lookupStore
            (h.store ++ List.zip (List.range' h.next b.opts.length) b.opts) p := rfl
      rw [hcomp]
      exact lookup_append_zip b.opts h.next h.store hWF.1
    · intro hempty
      simp [hempty, asJint]

/-- Witness for the theorem of claim C6, at the concrete single-option
builder built from the empty heap. -/
theorem build_record_fields_witness :
    witnessArgs.inner.version = witnessBuilder.version.toJint ∧
    witnessArgs.inner.ignoreUnrecognized =
      (if witnessBuilder.ignore_unrecognized then 1 else 0) ∧
    witnessArgs.inner.options = witnessArgs.opts ∧
    witnessArgs.inner.nOptions = asJint witnessBuilder.opts.length ∧
    (witnessBuilder.opts.length < 2 ^ 31 →
        witnessArgs.inner.nOptions = (witnessBuilder.opts.length : Int)) ∧
    (∀ o ∈ witnessArgs.opts, o.extraInfo = 0) ∧
    witnessArgs.opts.map (fun o => witnessHeap.contents o.optionString) =
      witnessBuilder.opts.map some ∧
    (witnessBuilder.opts = [] → witnessArgs.inner.nOptions = 0) :=
  build_ok_record_fields witnessBuilder emptyHeap witnessHeap witnessArgs
    (by simp [Heap.WF, emptyHeap]) (by decide)

/-- Claim C7 counterexample: the claim says default construction sets the
version tag to the baseline, i.e. the lowest supported native-interface
version; in fact the default version is `V8`, which is not the baseline
version and has a strictly greater foreign integer constant. -/
theorem default_version_not_baseline :
    InitArgsBuilder.new.version = JNIVersion.V8 ∧
    JNIVersion.V8 ≠ baselineVersion ∧
    baselineVersion.toJint < JNIVersion.V8.toJint := by decide

/-- Claim C7 as amended: `new()` (and default construction) produces a
builder with an empty pending option sequence, the ignore-unrecognized flag
false and the version tag `V8` (the documented default, not the lowest
supported version); construction is a total function and never fails. -/
theorem new_builder_defaults :
    InitArgsBuilder.new.opts = [] ∧
    InitArgsBuilder.new.ignore_unrecognized = false ∧
    InitArgsBuilder.new.version = JNIVersion.V8 ∧
    InitArgsBuilder.new = InitArgsBuilder.default := by decide

/-- Claim C8: last write wins for `version` and `ignore_unrecognized` —
repeating a setter keeps only the second value, each setter overwrites its
own field and leaves every other field unchanged. -/
theorem version_ignore_last_write_wins (b : InitArgsBuilder) (v1 v2 : JNIVersion)
    (f1 f2 : Bool) :
    (b.version' v1).version' v2 = b.version' v2 ∧
    (b.ignore_unrecognized' f1).ignore_unrecognized' f2 = b.ignore_unrecognized' f2 ∧
    (b.version' v1).opts = b.opts ∧
    (b.version' v1).ignore_unrecognized = b.ignore_unrecognized ∧
    (b.version' v2).version = v2 ∧
    (b.ignore_unrecognized' f1).opts = b.opts ∧
    (b.ignore_unrecognized' f1).version = b.version ∧
    (b.ignore_unrecognized' f2).ignore_unrecognized = f2 :=
  ⟨rfl, rfl, rfl, rfl, rfl, rfl, rfl, rfl⟩

/-- Claim C9: `build()` on a builder with zero accepted pending options
succeeds from any heap, producing an `InitArgs` whose option count is 0 and
whose backing sequence is empty, and destroying that `InitArgs` releases
nothing — the release loop iterates zero times and leaves the heap exactly
as it was. -/
theorem build_empty_opts_ok (b : InitArgsBuilder) (h : Heap) (hb : b.opts = []) :
    ∃ a : InitArgs, b.build h = (h, .ok a) ∧ a.inner.nOptions = 0 ∧ a.opts = [] ∧
      InitArgs.drop a h = h := by
  refine ⟨⟨⟨b.version.toJint, if b.ignore_unrecognized then 1 else 0, [], asJint 0⟩, []⟩,
    ?_, by norm_num [asJint], rfl, rfl⟩
  unfold InitArgsBuilder.build
  rw [hb]
  rfl

/-- Witness for the theorem of claim C9, at the fresh builder and the empty
heap. -/
theorem build_empty_opts_witness :
    ∃ a : InitArgs, InitArgsBuilder.new.build emptyHeap = (emptyHeap, .ok a) ∧
      a.inner.nOptions = 0 ∧ a.opts = [] ∧ InitArgs.drop a emptyHeap = emptyHeap :=
  build_empty_opts_ok InitArgsBuilder.new emptyHeap rfl

/-- Claim C10: when the pending options split as `pre ++ bad :: post` with
`bad` the earliest NUL-carrying string (all of `pre` clean), and `post`
contains at least one more NUL-carrying string, `build()` returns the
`NullOptString` error carrying `bad` — the earliest in insertion order —
and the final heap shows that only the options before `bad` were ever
encoded: the store grew exactly by the encodings of `pre`, with nothing of
`bad` or `post` allocated. -/
theorem build_first_nul_wins (b : InitArgsBuilder) (h : Heap)
    (pre : List String) (bad : String) (post : List String)
    (hdecomp : b.opts = pre ++ bad :: post)
    (hpre : ∀ s ∈ pre, hasInteriorNul s = false)
    (hbad : hasInteriorNul bad = true)
    (_hmore : ∃ t ∈ post, hasInteriorNul t = true) :
    b.build h =
      ({ next := h.next + pre.length,
         store := h.store ++ List.zip (List.range' h.next pre.length) pre,
         freed := h.freed },
       .error (JvmError.NullOptString bad)) := by
  unfold InitArgsBuilder.build
  rw [hdecomp, buildLoop_err pre h [] bad post hpre hbad]

/-- Witness for the theorem of claim C10, at the concrete builder holding
two NUL-carrying options. -/
theorem build_first_nul_witness :
    doubleNulBuilder.build emptyHeap =
      ({ next := emptyHeap.next + List.length ([] : List String),
         store := emptyHeap.store ++
           List.zip (List.range' emptyHeap.next (List.length ([] : List String))) [],
         freed := emptyHeap.freed },
       .error (JvmError.NullOptString nulString)) :=
  build_first_nul_wins doubleNulBuilder emptyHeap [] nulString [nulString2]
    (by decide) (by decide) (by decide) (by decide)

end JniInitArgs
